import Mathlib

/-! Shallow embedding of the powerman/tail follow engine: the trackedFile
abstraction (file.go) and the follow loop (tail.go: Follow, Read, tryOpen,
openNext, read).  Effectful platform calls (os.Open, (*File).Stat, os.Stat,
(*File).Read, (*File).Seek) and the select races over poll-delay,
poll-timeout and context cancellation are resolved by an environment oracle
that answers the i-th call of each kind; the interpreter threads per-kind
call counters and records a trace of observable actions. -/

namespace TailSpec

/-- Go error values relevant to the engine; `pathError` models an
`os.PathError` wrapper around an underlying error. -/
inductive GoError where
  | pathError : GoError → GoError
  | eof : GoError
  | errClosed : GoError
  | errInvalid : GoError
  | eagain : GoError
  | errno : Nat → GoError
deriving DecidableEq, Repr

/-- unwrap from util.go: strips one os.PathError layer, otherwise identity. -/
def unwrap : GoError → GoError
  | .pathError e => e
  | e => e

/-- errors.Is on the modelled errors: direct equality or matching anywhere
along the unwrap chain (os.PathError exposes Unwrap). -/
def GoError.is : GoError → GoError → Bool
  | .pathError inner, t => (GoError.pathError inner == t) || GoError.is inner t
  | e, t => e == t

/-- errors.Is applied to a possibly-nil Go error. -/
def optIsEof : Option GoError → Bool
  | some e => e.is .eof
  | none => false

/-- Modelled from the spec: the source file defining isWouldBlock is not under
src (only its caller in tail.go is).  Per the spec, a would-block result
(EAGAIN / EWOULDBLOCK from a non-blocking FIFO read) is classified as
temporary, distinct from end-of-stream and from the closed-descriptor error. -/
def isWouldBlock (e : GoError) : Bool := e == .eagain

/-- Stat record: inode identity (for os.SameFile) and the mode-type bits
(`mode & os.ModeType`; zero for a regular file). -/
structure FInfo where
  inode : Nat
  modeType : Nat
deriving DecidableEq, Repr

/-- os.SameFile applied to the stored snapshot (possibly absent, in which case
Go's type assertion fails and SameFile reports false) and a fresh stat. -/
def sameFile : Option FInfo → FInfo → Bool
  | none, _ => false
  | some i, fi => i.inode == fi.inode

/-- trackedFile from file.go: descriptor, stat snapshot taken at open time,
and whether a cancel function has been stored by a successful Open. -/
structure TrackedFile where
  file : Option Nat
  info : Option FInfo
  cancel : Bool
deriving DecidableEq, Repr

/-- newTrackedFile: constructed unopened, with no descriptor, no snapshot and
no cancel function. -/
def newTrackedFile : TrackedFile := { file := none, info := none, cancel := false }

/-- Outcome of one trackedFile.Open attempt as decided by the platform:
os.Open fails; os.Open yields a descriptor whose Stat fails; or both succeed,
with the stat snapshot taken from the opened descriptor. -/
inductive OpenOutcome where
  | openFail : GoError → OpenOutcome
  | statFail : Nat → GoError → OpenOutcome
  | success : Nat → FInfo → OpenOutcome
deriving DecidableEq, Repr

/-- Which ready channel a select picks: the poll-delay timer, the poll-timeout
channel, or the context-done channel. -/
inductive SelChoice where
  | delay : SelChoice
  | timeout : SelChoice
  | ctxDone : SelChoice
deriving DecidableEq, Repr

/-- Environment oracle: the result of the i-th call of each effectful kind. -/
structure Env where
  openRes : Nat → OpenOutcome
  readRes : Nat → Nat × Option GoError
  statRes : Nat → Option FInfo
  selRes : Nat → SelChoice
  seekRes : Nat → Option GoError

/-- Per-kind call counters threaded through the interpreter. -/
structure EnvSt where
  nOpen : Nat
  nRead : Nat
  nStat : Nat
  nSel : Nat
  nSeek : Nat
deriving DecidableEq, Repr

def EnvSt.bumpOpen (es : EnvSt) : EnvSt := { es with nOpen := es.nOpen + 1 }

def EnvSt.bumpRead (es : EnvSt) : EnvSt := { es with nRead := es.nRead + 1 }

def EnvSt.bumpStat (es : EnvSt) : EnvSt := { es with nStat := es.nStat + 1 }

def EnvSt.bumpSel (es : EnvSt) : EnvSt := { es with nSel := es.nSel + 1 }

def EnvSt.bumpSeek (es : EnvSt) : EnvSt := { es with nSeek := es.nSeek + 1 }

/-- Observable actions recorded by the interpreter: log lines, descriptor
closes, reads attributed to a descriptor, the seek-to-end of Follow, and the
two partial operations (Close invoking the stored cancel function, Usual
dereferencing the stored snapshot) tagged with whether the dereferenced
value was present. -/
inductive Act where
  | logOpened : Act
  | logReplaced : Act
  | logInaccessible : GoError → Act
  | logCannotOpen : GoError → Act
  | logReadErr : GoError → Act
  | closeFd : Nat → Act
  | readFd : Nat → Nat → Act
  | closeCall : Bool → Act
  | usualCall : Bool → Act
  | seekEnd : Act
deriving DecidableEq, Repr

/-- An action is safe unless it records a Close whose cancel function was
absent or a Usual whose snapshot was absent (either would be a nil
dereference in the Go code). -/
def safeAct : Act → Bool
  | .closeCall b => b
  | .usualCall b => b
  | _ => true

/-- trackedFile.Open from file.go: os.Open, then Stat on the descriptor; on
failure at either step any opened descriptor is closed and the fields are
left unchanged; on success descriptor, snapshot and cancel are stored. -/
def TrackedFile.Open (tf : TrackedFile) (r : OpenOutcome) :
    Option GoError × TrackedFile × List Act :=
  match r with
  | .openFail e => (some e, tf, [])
  | .statFail fd e => (some e, tf, [.closeFd fd])
  | .success fd fi => (none, { file := some fd, info := some fi, cancel := true }, [])

/-- trackedFile.Close from file.go: drops descriptor and snapshot and invokes
the stored cancel function (recorded with whether it was present; its firing
closes the descriptor via the watcher). -/
def TrackedFile.Close (tf : TrackedFile) : TrackedFile × List Act :=
  ({ file := none, info := none, cancel := tf.cancel },
    .closeCall tf.cancel ::
      (match tf.file with
       | some fd => [Act.closeFd fd]
       | none => []))

/-- trackedFile.Opened from file.go. -/
def TrackedFile.Opened (tf : TrackedFile) : Bool := tf.file.isSome

/-- trackedFile.Usual from file.go: dereferences the stored snapshot
(recorded with whether it was present) and tests the mode-type bits. -/
def TrackedFile.Usual (tf : TrackedFile) : Bool × List Act :=
  ((match tf.info with
    | some fi => fi.modeType == 0
    | none => false),
    [.usualCall tf.info.isSome])

/-- trackedFile.Detached from file.go: stats the path (the oracle's answer);
any stat error counts as detached, otherwise detached iff not the same file
as the snapshot. -/
def TrackedFile.Detached (tf : TrackedFile) (statR : Option FInfo) : Bool :=
  match statR with
  | none => true
  | some fi => !(sameFile tf.info fi)

/-- trackedFile.Read: a pass-through to the descriptor (the oracle's answer);
a read on a nil descriptor returns os.ErrInvalid with no bytes. -/
def TrackedFile.Read (tf : TrackedFile) (rr : Nat × Option GoError) :
    (Nat × Option GoError) × List Act :=
  match tf.file with
  | none => ((0, some .errInvalid), [])
  | some fd => (rr, [.readFd fd rr.1])

/-- Effective select choice: a nil timeout channel (unarmed) never fires, so a
timeout pick degrades to the always-ready poll-delay timer. -/
def select (armed : Bool) (c : SelChoice) : SelChoice :=
  if c == SelChoice.timeout && !armed then .delay else c

/-- The engine state of tail.go: current tracked file, optional pending
tracked file, and the last error surfaced by Read. -/
structure Tail where
  f : TrackedFile
  next : Option TrackedFile
  lasterr : Option GoError
deriving DecidableEq, Repr

/-- Invariant on a tracked file: if a descriptor is present then a cancel
function and a stat snapshot are present too. -/
def invTF (tf : TrackedFile) : Bool := !tf.file.isSome || (tf.cancel && tf.info.isSome)

/-- Invariant on the engine: both the current and the pending tracked file
satisfy invTF. -/
def invTail (t : Tail) : Bool :=
  invTF t.f &&
    (match t.next with
     | some nx => invTF nx
     | none => true)

/-- Tail.openNext from tail.go: when no pending exists and the current file is
detached, create a pending tracked file and try to open it; when an unopened
pending exists, retry its open; otherwise do nothing. -/
def Tail.openNext (env : Env) (es : EnvSt) (t : Tail) :
    Option GoError × Tail × EnvSt × List Act :=
  match t.next with
  | none =>
    let statR := env.statRes es.nStat
    let es1 := es.bumpStat
    if t.f.Detached statR then
      let (e, nf1, a) := TailSpec.newTrackedFile.Open (env.openRes es1.nOpen)
      let es2 := es1.bumpOpen
      match e.map unwrap with
      | some e1 => (some e1, { t with next := some nf1 }, es2, a ++ [.logInaccessible e1])
      | none => (none, { t with next := some nf1 }, es2, a ++ [.logReplaced])
    else
      (none, t, es1, [])
  | some nx =>
    if nx.Opened then
      (none, t, es, [])
    else
      let (e, nx1, a) := nx.Open (env.openRes es.nOpen)
      let es1 := es.bumpOpen
      match e.map unwrap with
      | some e1 => (some e1, { t with next := some nx1 }, es1, a)
      | none => (none, { t with next := some nx1 }, es1, a ++ [.logOpened])

/-- The tail of Tail.read after the rotation check: the switch on the
unwrapped read error and the closing select over poll-delay, poll-timeout
(disabled when no error is pending) and context cancellation. -/
def readSwitch (env : Env) (es : EnvSt) (t : Tail) (armed : Bool)
    (errOpen : Option GoError) (n : Nat) (err : Option GoError) (acc : List Act) :
    Option (Nat × Option GoError × Tail × EnvSt × List Act) :=
  match err with
  | none => some (n, none, t, es, acc)
  | some e =>
    if e.is .errClosed then
      some (0, some .eof, t, es, acc)
    else
      let r2 : Option GoError × List Act :=
        if e.is .eof then (errOpen, acc)
        else if isWouldBlock e then (none, acc)
        else (some e, acc ++ [.logReadErr e])
      let armed2 := armed && r2.1.isSome
      let c := select armed2 (env.selRes es.nSel)
      let es1 := es.bumpSel
      match c with
      | .delay => some (0, none, t, es1, r2.2)
      | .timeout => some (0, r2.1, t, es1, r2.2)
      | .ctxDone => some (0, some .eof, t, es1, r2.2)

/-- Tail.read from tail.go: run openNext, read the current file, and on
end-of-stream with an open pending file close the current, promote the
pending (clearing the slot) and read again; otherwise classify the error and
wait.  Fueled on the depth of rotation handoffs. -/
def Tail.read (env : Env) : Nat → EnvSt → Tail → Bool →
    Option (Nat × Option GoError × Tail × EnvSt × List Act)
  | 0, _, _, _ => none
  | fuel + 1, es, t, armed =>
    let (errOpen, t1, es1, a1) := t.openNext env es
    let ((n, err0), a2) := t1.f.Read (env.readRes es1.nRead)
    let es2 := es1.bumpRead
    let err := err0.map unwrap
    match t1.next with
    | some nx =>
      if optIsEof err && nx.Opened then
        let (_, a3) := t1.f.Close
        let t2 : Tail := { f := nx, next := none, lasterr := t1.lasterr }
        match Tail.read env fuel es2 t2 armed with
        | none => none
        | some (n', e', t', es', a') => some (n', e', t', es', a1 ++ a2 ++ a3 ++ a')
      else
        readSwitch env es2 t1 armed errOpen n err (a1 ++ a2)
    | none => readSwitch env es2 t1 armed errOpen n err (a1 ++ a2)

/-- The outer for-loop of Tail.Read: repeat Tail.read while it yields zero
bytes and no error, storing each result's error in lasterr.  Fueled on the
number of iterations. -/
def Tail.readLoop (env : Env) : Nat → Nat → EnvSt → Tail → Bool →
    Option (Nat × Option GoError × Tail × EnvSt × List Act)
  | 0, _, _, _, _ => none
  | g + 1, fuel, es, t, armed =>
    match Tail.read env fuel es t armed with
    | none => none
    | some (n, err, t1, es1, a1) =>
      if n == 0 && err.isNone then
        match Tail.readLoop env g fuel es1 { t1 with lasterr := none } armed with
        | none => none
        | some (n', e', t', es', a') => some (n', e', t', es', a1 ++ a')
      else
        some (n, err, { t1 with lasterr := err }, es1, a1)

/-- Tail.tryOpen from tail.go: retry the current file's open; on each failure
race poll-delay (retry), poll-timeout (return the unwrapped open error) and
cancellation (return io.EOF); on success log and return nil.  Fueled on the
number of attempts. -/
def Tail.tryOpen (env : Env) : Nat → EnvSt → Tail → Bool →
    Option (Option GoError × Tail × EnvSt × List Act)
  | 0, _, _, _ => none
  | fuel + 1, es, t, armed =>
    let (e, f1, a1) := t.f.Open (env.openRes es.nOpen)
    let es1 := es.bumpOpen
    let t1 := { t with f := f1 }
    match e with
    | none => some (none, t1, es1, a1 ++ [.logOpened])
    | some er =>
      let c := select armed (env.selRes es1.nSel)
      let es2 := es1.bumpSel
      match c with
      | .delay =>
        match Tail.tryOpen env fuel es2 t1 armed with
        | none => none
        | some (r, t', es', a') => some (r, t', es', a1 ++ a')
      | .timeout => some (some (unwrap er), t1, es2, a1)
      | .ctxDone => some (some .eof, t1, es2, a1)

/-- Tail.Read from tail.go, one pull: short-circuit on a recorded
end-of-stream, on a zero-length buffer return (0, nil), arm the poll-timeout
only if the previous pull surfaced no error, ensure the current file is open
(tryOpen), then run the read loop; the surfaced error is stored in lasterr. -/
def Tail.Read (env : Env) (fuel : Nat) (es : EnvSt) (t : Tail) (plen : Nat) :
    Option (Nat × Option GoError × Tail × EnvSt × List Act) :=
  if optIsEof t.lasterr then some (0, t.lasterr, t, es, [])
  else if plen == 0 then some (0, none, t, es, [])
  else
    let armed := t.lasterr.isNone
    let t0 : Tail := { t with lasterr := none }
    if t0.f.Opened then
      Tail.readLoop env fuel fuel es t0 armed
    else
      match Tail.tryOpen env fuel es t0 armed with
      | none => none
      | some (some e, t1, es1, a1) =>
        some (0, some e, { t1 with lasterr := some e }, es1, a1)
      | some (none, t1, es1, a1) =>
        match Tail.readLoop env fuel fuel es1 t1 armed with
        | none => none
        | some (n, e2, t', es', a') => some (n, e2, t', es', a1 ++ a')

/-- Follow from tail.go: construct the engine, attempt the initial open; when
it succeeds on a regular file seek to the end, closing the tracked file and
treating the situation as an open failure when the seek fails; log any open
failure. -/
def Follow (env : Env) (es : EnvSt) : Tail × EnvSt × List Act :=
  let t0 : Tail := { f := TailSpec.newTrackedFile, next := none, lasterr := none }
  let (e, f1, a1) := t0.f.Open (env.openRes es.nOpen)
  let es1 := es.bumpOpen
  match e with
  | none =>
    let (isUsual, a2) := f1.Usual
    if isUsual then
      match env.seekRes es1.nSeek with
      | none => ({ t0 with f := f1 }, es1.bumpSeek, a1 ++ a2 ++ [.seekEnd])
      | some se =>
        let (f2, a3) := f1.Close
        ({ t0 with f := f2 }, es1.bumpSeek,
          a1 ++ a2 ++ [.seekEnd] ++ a3 ++ [.logCannotOpen (unwrap se)])
    else
      ({ t0 with f := f1 }, es1, a1 ++ a2)
  | some e1 =>
    ({ t0 with f := f1 }, es1, a1 ++ [.logCannotOpen (unwrap e1)])

/-- Descriptor a platform open attempt produced, if any. -/
def openedFd : OpenOutcome → Option Nat
  | .openFail _ => none
  | .statFail fd _ => some fd
  | .success fd _ => some fd

/-- Environment property: open attempts never fail with an end-of-stream
error (os.Open and Stat never return io.EOF). -/
def openNoEof : OpenOutcome → Bool
  | .openFail e => !(unwrap e).is .eof
  | .statFail _ e => !(unwrap e).is .eof
  | .success _ _ => true

/-- Environment property: a read never fails with the closed-descriptor
error, which only the cancellation watcher's close can cause. -/
def readNoClosed (rr : Nat × Option GoError) : Bool :=
  match rr.2 with
  | some e => !(unwrap e).is .errClosed
  | none => true

section Fixtures

/-- Zeroed call counters. -/
def es0 : EnvSt := ⟨0, 0, 0, 0, 0⟩

/-- Stat record of a regular file on inode 1. -/
def fiReg : FInfo := ⟨1, 0⟩

/-- Quiet environment: opens succeed on inode 2, reads yield one byte, the
path stats to inode 1, selects pick the poll-delay timer, seeks succeed. -/
def envD : Env :=
  { openRes := fun _ => .success 7 ⟨2, 0⟩
    readRes := fun _ => (1, none)
    statRes := fun _ => some fiReg
    selRes := fun _ => .delay
    seekRes := fun _ => none }

/-- Environment whose path stat always fails (path gone). -/
def envGone : Env := { envD with statRes := fun _ => none }

/-- Environment whose seek fails with a generic errno. -/
def envSeekFail : Env := { envD with seekRes := fun _ => some (.errno 22) }

/-- A tracked file opened on inode 1. -/
def tfOpen1 : TrackedFile := ⟨some 1, some fiReg, true⟩

/-- Engine with an opened current file and clear pending and error slots. -/
def tBase : Tail := ⟨tfOpen1, none, none⟩

/-- Engine that has already reported end-of-stream. -/
def tEof : Tail := ⟨tfOpen1, none, some .eof⟩

end Fixtures

/-- Helper: openNext never changes the current tracked file or lasterr. -/
theorem openNext_keeps (env : Env) (es : EnvSt) (t : Tail) :
    ((t.openNext env es).2.1).f = t.f ∧ ((t.openNext env es).2.1).lasterr = t.lasterr := by
  unfold Tail.openNext
  rcases t.next with _ | nx
  · dsimp only
    split
    · rcases h : (TailSpec.newTrackedFile.Open (env.openRes es.bumpStat.nOpen)) with ⟨e, nf1, a⟩
      rcases e with _ | e0 <;> simp
    · simp
  · dsimp only
    split
    · simp
    · rcases h : nx.Open (env.openRes es.nOpen) with ⟨e, nx1, a⟩
      rcases e with _ | e0 <;> simp

/-- C8: trackedFile.Open is atomic on failure: whenever either the platform
open or the descriptor stat fails, the tracked file is returned unchanged and
any descriptor that was opened is closed; on success the stored descriptor
and snapshot are exactly those produced together by the platform open, so
they describe the same inode. -/
theorem trackedFile_open_atomic (tf : TrackedFile) (r : OpenOutcome)
    (res : Option GoError) (tf' : TrackedFile) (acts : List Act)
    (h : tf.Open r = (res, tf', acts)) :
    (∀ e, res = some e → tf' = tf ∧ ∀ fd, openedFd r = some fd → Act.closeFd fd ∈ acts) ∧
    (res = none →
      ∃ fd fi, r = .success fd fi ∧ tf'.file = some fd ∧ tf'.info = some fi ∧
        tf'.cancel = true) := by
  cases r <;>
    simp only [TrackedFile.Open, openedFd, Prod.mk.injEq] at h ⊢ <;>
    obtain ⟨h1, h2, h3⟩ := h <;> subst h1 <;> subst h2 <;> subst h3 <;> simp

/-- C8 witness: a stat failure on descriptor 3 leaves the never-opened
tracked file unchanged and closes descriptor 3. -/
theorem trackedFile_open_atomic_witness :
    TailSpec.newTrackedFile = TailSpec.newTrackedFile ∧
      Act.closeFd 3 ∈ [Act.closeFd 3] :=
  (trackedFile_open_atomic TailSpec.newTrackedFile (.statFail 3 (.errno 13))
      (some (.errno 13)) TailSpec.newTrackedFile [Act.closeFd 3] (by decide)).1
    (.errno 13) rfl |>.imp id (fun h => h 3 rfl)

/-- C7: the pending slot is only ever filled by openNext, and it creates a
pending tracked file only when none exists and the current tracked file is
observed detached (the path is gone or its inode differs from the snapshot);
the current tracked file is left untouched. -/
theorem pending_created_only_detached (env : Env) (es : EnvSt) (t : Tail)
    (e1 : Option GoError) (t' : Tail) (es' : EnvSt) (a : List Act)
    (hnone : t.next = none) (h : t.openNext env es = (e1, t', es', a)) :
    t'.f = t.f ∧ (t'.next.isSome = true → t.f.Detached (env.statRes es.nStat) = true) := by
  unfold Tail.openNext at h
  rw [hnone] at h
  dsimp only at h
  by_cases hd : t.f.Detached (env.statRes es.nStat) = true
  · rw [if_pos hd] at h
    rcases ho : (TailSpec.newTrackedFile.Open (env.openRes es.bumpStat.nOpen)) with ⟨e, nf1, aa⟩
    rw [ho] at h
    rcases e with _ | e0
    all_goals
      simp only [Option.map_none', Option.map_some', Prod.mk.injEq] at h
      obtain ⟨-, h2, -, -⟩ := h
      subst h2
      exact ⟨rfl, fun _ => hd⟩
  · rw [if_neg hd] at h
    simp only [Prod.mk.injEq] at h
    obtain ⟨-, h2, -, -⟩ := h
    subst h2
    simp [hnone]

/-- C7 witness: with the path gone the current file is detached, and the
pending slot gets created while the current file is untouched. -/
theorem pending_created_only_detached_witness :
    tfOpen1 = tfOpen1 ∧
      ((some (TrackedFile.mk (some 7) (some ⟨2, 0⟩) true) : Option TrackedFile).isSome = true →
        tfOpen1.Detached (envGone.statRes es0.nStat) = true) := by
  have h := pending_created_only_detached envGone es0 tBase none
    ⟨tfOpen1, some ⟨some 7, some ⟨2, 0⟩, true⟩, none⟩ ⟨1, 0, 1, 0, 0⟩
    [Act.logReplaced] rfl (by decide)
  exact h

/-- Helper: the outer read loop never yields zero bytes with a nil error (it
would have retried instead). -/
theorem readLoop_not_both (env : Env) :
    ∀ g fuel es t armed n err t' es' tr,
      Tail.readLoop env g fuel es t armed = some (n, err, t', es', tr) →
      err = none → n ≠ 0 := by
  intro g
  induction g with
  | zero =>
    intro fuel es t armed n err t' es' tr h
    simp [Tail.readLoop] at h
  | succ g ih =>
    intro fuel es t armed n err t' es' tr h hn
    rw [Tail.readLoop] at h
    rcases hr : Tail.read env fuel es t armed with _ | ⟨n1, e1, t1, es1, a1⟩
    · rw [hr] at h
      simp at h
    · rw [hr] at h
      dsimp only at h
      by_cases hg : (n1 == 0 && e1.isNone) = true
      · rw [if_pos hg] at h
        rcases hrec : Tail.readLoop env g fuel es1 { t1 with lasterr := none } armed with
          _ | ⟨n', e', t2, es2, a'⟩
        · rw [hrec] at h
          simp at h
        · rw [hrec] at h
          simp only [Option.some.injEq, Prod.mk.injEq] at h
          obtain ⟨hn1, he1, -, -, -⟩ := h
          subst hn1
          subst he1
          exact ih _ _ _ _ _ _ _ _ _ hrec hn
      · rw [if_neg hg] at h
        simp only [Option.some.injEq, Prod.mk.injEq] at h
        obtain ⟨hn1, he1, -, -, -⟩ := h
        subst hn1
        subst he1
        subst hn
        simp [Option.isNone] at hg
        intro hzero
        subst hzero
        simp at hg

/-- Helper: the outer read loop stores the error it returns in lasterr. -/
theorem readLoop_lasterr (env : Env) :
    ∀ g fuel es t armed n err t' es' tr,
      Tail.readLoop env g fuel es t armed = some (n, err, t', es', tr) →
      t'.lasterr = err := by
  intro g
  induction g with
  | zero =>
    intro fuel es t armed n err t' es' tr h
    simp [Tail.readLoop] at h
  | succ g ih =>
    intro fuel es t armed n err t' es' tr h
    rw [Tail.readLoop] at h
    rcases hr : Tail.read env fuel es t armed with _ | ⟨n1, e1, t1, es1, a1⟩
    · rw [hr] at h
      simp at h
    · rw [hr] at h
      dsimp only at h
      by_cases hg : (n1 == 0 && e1.isNone) = true
      · rw [if_pos hg] at h
        rcases hrec : Tail.readLoop env g fuel es1 { t1 with lasterr := none } armed with
          _ | ⟨n', e', t2, es2, a'⟩
        · rw [hrec] at h
          simp at h
        · rw [hrec] at h
          simp only [Option.some.injEq, Prod.mk.injEq] at h
          obtain ⟨-, he1, ht, -, -⟩ := h
          subst ht
          subst he1
          exact ih _ _ _ _ _ _ _ _ _ hrec
      · rw [if_neg hg] at h
        simp only [Option.some.injEq, Prod.mk.injEq] at h
        obtain ⟨-, he1, ht, -, -⟩ := h
        subst ht
        subst he1
        rfl

/-- Helper: a pull that surfaces an error records it in lasterr. -/
theorem read_sets_lasterr (env : Env) (fuel : Nat) (es : EnvSt) (t : Tail)
    (plen : Nat) (n : Nat) (e : GoError) (t' : Tail) (es' : EnvSt) (tr : List Act)
    (h : Tail.Read env fuel es t plen = some (n, some e, t', es', tr)) :
    t'.lasterr = some e := by
  unfold Tail.Read at h
  by_cases hle : optIsEof t.lasterr = true
  · rw [if_pos hle] at h
    simp only [Option.some.injEq, Prod.mk.injEq] at h
    obtain ⟨-, he, ht, -, -⟩ := h
    subst ht
    exact he
  · rw [if_neg hle] at h
    by_cases hp : (plen == 0) = true
    · rw [if_pos hp] at h
      simp at h
    · rw [if_neg hp] at h
      dsimp only at h
      by_cases ho : ({ t with lasterr := none } : Tail).f.Opened = true
      · rw [if_pos ho] at h
        exact readLoop_lasterr env fuel fuel es { t with lasterr := none }
          t.lasterr.isNone n (some e) t' es' tr h
      · rw [if_neg ho] at h
        rcases hto : Tail.tryOpen env fuel es { t with lasterr := none } t.lasterr.isNone with
          _ | ⟨e1, t1, es1, a1⟩
        · rw [hto] at h
          simp at h
        · rw [hto] at h
          rcases e1 with _ | e2
          · dsimp only at h
            rcases hrl : Tail.readLoop env fuel fuel es1 t1 t.lasterr.isNone with
              _ | ⟨n2, e2', t2, es2, a2⟩
            · rw [hrl] at h
              simp at h
            · rw [hrl] at h
              simp only [Option.some.injEq, Prod.mk.injEq] at h
              obtain ⟨-, he, ht, -, -⟩ := h
              subst ht
              rw [← he]
              exact readLoop_lasterr env fuel fuel es1 t1 t.lasterr.isNone n2 e2' t2 es2 a2 hrl
          · simp only [Option.some.injEq, Prod.mk.injEq] at h
            obtain ⟨-, he, ht, -, -⟩ := h
            subst ht
            simp [he]

/-- Helper: a pull that returns no error on a non-empty buffer returns at
least one byte. -/
theorem read_success_pos (env : Env) (fuel : Nat) (es : EnvSt) (t : Tail)
    (plen : Nat) (n : Nat) (t' : Tail) (es' : EnvSt) (tr : List Act)
    (h : Tail.Read env fuel es t plen = some (n, none, t', es', tr))
    (hp : plen ≠ 0) : 1 ≤ n := by
  unfold Tail.Read at h
  by_cases hle : optIsEof t.lasterr = true
  · rw [if_pos hle] at h
    simp only [Option.some.injEq, Prod.mk.injEq] at h
    obtain ⟨-, he, -, -, -⟩ := h
    rw [he] at hle
    simp [optIsEof] at hle
  · rw [if_neg hle] at h
    have hp2 : (plen == 0) = false := by
      simpa using hp
    rw [hp2] at h
    simp only [Bool.false_eq_true, if_false] at h
    dsimp only at h
    by_cases ho : ({ t with lasterr := none } : Tail).f.Opened = true
    · rw [if_pos ho] at h
      have := readLoop_not_both env fuel fuel es { t with lasterr := none }
        t.lasterr.isNone n none t' es' tr h rfl
      omega
    · rw [if_neg ho] at h
      rcases hto : Tail.tryOpen env fuel es { t with lasterr := none } t.lasterr.isNone with
        _ | ⟨e1, t1, es1, a1⟩
      · rw [hto] at h
        simp at h
      · rw [hto] at h
        rcases e1 with _ | e2
        · dsimp only at h
          rcases hrl : Tail.readLoop env fuel fuel es1 t1 t.lasterr.isNone with
            _ | ⟨n2, e2', t2, es2, a2⟩
          · rw [hrl] at h
            simp at h
          · rw [hrl] at h
            simp only [Option.some.injEq, Prod.mk.injEq] at h
            obtain ⟨hn, he, -, -, -⟩ := h
            have h3 := readLoop_not_both env fuel fuel es1 t1 t.lasterr.isNone n2 e2'
              t2 es2 a2 hrl he
            omega
        · simp at h

/-- C5: a pull that returns no error returns at least one byte unless the
buffer was empty; the outer loop of Read retries every zero-byte nil-error
iteration, so (0, nil) is only possible for a zero-length buffer. -/
theorem success_returns_bytes (env : Env) (fuel : Nat) (es : EnvSt) (t : Tail)
    (plen : Nat) (n : Nat) (t' : Tail) (es' : EnvSt) (tr : List Act)
    (h : Tail.Read env fuel es t plen = some (n, none, t', es', tr))
    (hp : plen ≠ 0) : 1 ≤ n :=
  read_success_pos env fuel es t plen n t' es' tr h hp

/-- C5 witness: a one-byte buffer pull under the quiet environment returns
one byte and no error. -/
theorem success_returns_bytes_witness : 1 ≤ 1 :=
  success_returns_bytes envD 1 es0 tBase 1 1 tBase
    ⟨0, 1, 1, 0, 0⟩ [Act.readFd 1 1] (by decide) (by decide)

/-- C2: end-of-stream is idempotent: a pull that surfaced an end-of-stream
error records it in lasterr, and from such a state every subsequent pull,
under any environment, any fuel and any buffer, returns zero bytes and the
same end-of-stream error while consuming no environment calls, performing no
actions and leaving the engine unchanged. -/
theorem eof_idempotent (env : Env) (fuel : Nat) (es : EnvSt) (t : Tail)
    (plen : Nat) (n : Nat) (e : GoError) (t' : Tail) (es' : EnvSt) (tr : List Act)
    (h : Tail.Read env fuel es t plen = some (n, some e, t', es', tr))
    (he : e.is .eof = true) :
    t'.lasterr = some e ∧
      ∀ (env2 : Env) (fuel2 : Nat) (es2 : EnvSt) (plen2 : Nat),
        Tail.Read env2 fuel2 es2 t' plen2 = some (0, some e, t', es2, []) := by
  have hl := read_sets_lasterr env fuel es t plen n e t' es' tr h
  refine ⟨hl, fun env2 fuel2 es2 plen2 => ?_⟩
  unfold Tail.Read
  rw [hl]
  have : optIsEof (some e) = true := by
    simpa [optIsEof] using he
  rw [this]
  simp

/-- C2 witness: after a pull that returned end-of-stream, a later pull with a
different environment, fuel and buffer returns the same end-of-stream with
no state change. -/
theorem eof_idempotent_witness :
    tEof.lasterr = some GoError.eof ∧
      Tail.Read envGone 3 es0 tEof 7 = some (0, some GoError.eof, tEof, es0, []) := by
  have h := eof_idempotent envD 1 es0 tEof 5 0 GoError.eof tEof es0 []
    (by decide) (by decide)
  exact ⟨h.1, h.2 envGone 3 es0 7⟩

/-- C6 counterexample: with end-of-stream already reported, a zero-length
buffer pull returns the recorded end-of-stream error, not (0, no-error): the
lasterr check precedes the buffer-length check in Read. -/
theorem zero_buffer_after_eof_cex :
    Tail.Read envD 1 es0 tEof 0 = some (0, some GoError.eof, tEof, es0, []) ∧
      some GoError.eof ≠ (none : Option GoError) := by
  constructor
  · decide
  · decide

/-- C6 amended: a zero-length buffer pull returns (0, no-error) and leaves
the engine, the environment counters and the trace untouched, provided
end-of-stream has not already been reported; once end-of-stream has been
reported, a zero-length pull returns the recorded end-of-stream error, again
with no state change. -/
theorem zero_buffer_noop (env : Env) (fuel : Nat) (es : EnvSt) (t : Tail) :
    (optIsEof t.lasterr = false → Tail.Read env fuel es t 0 = some (0, none, t, es, [])) ∧
    (optIsEof t.lasterr = true → Tail.Read env fuel es t 0 = some (0, t.lasterr, t, es, [])) := by
  constructor <;> intro h <;> unfold Tail.Read <;> simp [h]

/-- C6 amended witness: a zero-length pull on an engine with a pending
non-end-of-stream error returns (0, no-error) unchanged. -/
theorem zero_buffer_noop_witness :
    Tail.Read envD 1 es0 { tBase with lasterr := some (.errno 5) } 0 =
      some (0, none, { tBase with lasterr := some (.errno 5) }, es0, []) :=
  (zero_buffer_noop envD 1 es0 { tBase with lasterr := some (.errno 5) }).1 (by decide)

/-- Helper: an unarmed select (nil timeout channel) can only pick the
poll-delay timer or cancellation. -/
theorem select_false (c : SelChoice) :
    select false c = .delay ∨ select false c = .ctxDone := by
  cases c <;> simp [select]

/-- Helper: with a nil timeout channel the closing select of read can only
end in retry (no error) or cancellation (end-of-stream). -/
theorem readSwitch_unarmed (env : Env) (es : EnvSt) (t : Tail)
    (errOpen : Option GoError) (n : Nat) (err : Option GoError) (acc : List Act)
    (n' : Nat) (err' : Option GoError) (t' : Tail) (es' : EnvSt) (tr' : List Act)
    (h : readSwitch env es t false errOpen n err acc = some (n', err', t', es', tr')) :
    err' = none ∨ err' = some .eof := by
  unfold readSwitch at h
  rcases err with _ | e
  · simp only [Option.some.injEq, Prod.mk.injEq] at h
    obtain ⟨-, he, -, -, -⟩ := h
    exact Or.inl he.symm
  · dsimp only at h
    by_cases hc : e.is .errClosed = true
    · rw [if_pos hc] at h
      simp only [Option.some.injEq, Prod.mk.injEq] at h
      obtain ⟨-, he, -, -, -⟩ := h
      exact Or.inr he.symm
    · rw [if_neg hc] at h
      simp only [Bool.false_and] at h
      rcases select_false (env.selRes es.nSel) with hs | hs <;>
        rw [hs] at h <;>
        simp only [Option.some.injEq, Prod.mk.injEq] at h <;>
        obtain ⟨-, he, -, -, -⟩ := h
      · exact Or.inl he.symm
      · exact Or.inr he.symm

/-- Helper: with a nil timeout channel a read step returns either no error or
end-of-stream; it never surfaces another error. -/
theorem read_unarmed (env : Env) :
    ∀ fuel es t n err t' es' tr,
      Tail.read env fuel es t false = some (n, err, t', es', tr) →
      err = none ∨ err = some .eof := by
  intro fuel
  induction fuel with
  | zero =>
    intro es t n err t' es' tr h
    simp [Tail.read] at h
  | succ fuel ih =>
    intro es t n err t' es' tr h
    rw [Tail.read] at h
    rcases hop : t.openNext env es with ⟨errOpen, t1, es1, a1⟩
    rw [hop] at h
    dsimp only at h
    rcases hnx : t1.next with _ | nx
    · rw [hnx] at h
      exact readSwitch_unarmed env es1.bumpRead t1 errOpen
        (t1.f.Read (env.readRes es1.nRead)).1.1
        ((t1.f.Read (env.readRes es1.nRead)).1.2.map unwrap)
        (a1 ++ (t1.f.Read (env.readRes es1.nRead)).2) n err t' es' tr h
    · rw [hnx] at h
      dsimp only at h
      by_cases hrot :
        (optIsEof ((t1.f.Read (env.readRes es1.nRead)).1.2.map unwrap) && nx.Opened) = true
      · rw [if_pos hrot] at h
        rcases hrec : Tail.read env fuel es1.bumpRead
            { f := nx, next := none, lasterr := t1.lasterr } false with
          _ | ⟨n2, e2, t2, es2, a2⟩
        · rw [hrec] at h
          simp at h
        · rw [hrec] at h
          simp only [Option.some.injEq, Prod.mk.injEq] at h
          obtain ⟨-, he, -, -, -⟩ := h
          subst he
          exact ih _ _ _ _ _ _ _ hrec
      · rw [if_neg hrot] at h
        exact readSwitch_unarmed env es1.bumpRead t1 errOpen
          (t1.f.Read (env.readRes es1.nRead)).1.1
          ((t1.f.Read (env.readRes es1.nRead)).1.2.map unwrap)
          (a1 ++ (t1.f.Read (env.readRes es1.nRead)).2) n err t' es' tr h

/-- Helper: the outer read loop with a nil timeout channel returns either no
error or end-of-stream. -/
theorem readLoop_unarmed (env : Env) :
    ∀ g fuel es t n err t' es' tr,
      Tail.readLoop env g fuel es t false = some (n, err, t', es', tr) →
      err = none ∨ err = some .eof := by
  intro g
  induction g with
  | zero =>
    intro fuel es t n err t' es' tr h
    simp [Tail.readLoop] at h
  | succ g ih =>
    intro fuel es t n err t' es' tr h
    rw [Tail.readLoop] at h
    rcases hr : Tail.read env fuel es t false with _ | ⟨n1, e1, t1, es1, a1⟩
    · rw [hr] at h
      simp at h
    · rw [hr] at h
      dsimp only at h
      by_cases hg : (n1 == 0 && e1.isNone) = true
      · rw [if_pos hg] at h
        rcases hrec : Tail.readLoop env g fuel es1 { t1 with lasterr := none } false with
          _ | ⟨n', e', t2, es2, a'⟩
        · rw [hrec] at h
          simp at h
        · rw [hrec] at h
          simp only [Option.some.injEq, Prod.mk.injEq] at h
          obtain ⟨-, he, -, -, -⟩ := h
          subst he
          exact ih _ _ _ _ _ _ _ _ hrec
      · rw [if_neg hg] at h
        simp only [Option.some.injEq, Prod.mk.injEq] at h
        obtain ⟨-, he, -, -, -⟩ := h
        subst he
        exact read_unarmed env fuel es t _ _ _ _ _ hr

/-- Helper: the open-retry loop with a nil timeout channel returns either
success or end-of-stream (cancellation); the timeout branch that would
surface the open error is disabled. -/
theorem tryOpen_unarmed (env : Env) :
    ∀ fuel es t r t' es' a,
      Tail.tryOpen env fuel es t false = some (r, t', es', a) →
      r = none ∨ r = some .eof := by
  intro fuel
  induction fuel with
  | zero =>
    intro es t r t' es' a h
    simp [Tail.tryOpen] at h
  | succ fuel ih =>
    intro es t r t' es' a h
    rw [Tail.tryOpen] at h
    rcases ho : t.f.Open (env.openRes es.nOpen) with ⟨e, f1, a1⟩
    rw [ho] at h
    dsimp only at h
    rcases e with _ | er
    · simp only [Option.some.injEq, Prod.mk.injEq] at h
      obtain ⟨hr, -, -, -⟩ := h
      exact Or.inl hr.symm
    · rcases select_false (env.selRes es.bumpOpen.nSel) with hs | hs <;> rw [hs] at h
      · rcases hrec : Tail.tryOpen env fuel es.bumpOpen.bumpSel { t with f := f1 } false with
          _ | ⟨r2, t2, es2, a2⟩
        · rw [hrec] at h
          simp at h
        · rw [hrec] at h
          simp only [Option.some.injEq, Prod.mk.injEq] at h
          obtain ⟨hr, -, -, -⟩ := h
          subst hr
          exact ih _ _ _ _ _ _ hrec
      · simp only [Option.some.injEq, Prod.mk.injEq] at h
        obtain ⟨hr, -, -, -⟩ := h
        exact Or.inr hr.symm

/-- C4: after a pull surfaced a non-end-of-stream error, the next pull runs
with a nil timeout channel, so it can only terminate by returning at least
one byte with no error, or by returning end-of-stream; it never surfaces
another non-end-of-stream error. -/
theorem recovery_after_error (env : Env) (fuel : Nat) (es : EnvSt) (t : Tail)
    (plen : Nat) (e0 : GoError) (n : Nat) (err : Option GoError) (t' : Tail)
    (es' : EnvSt) (tr : List Act)
    (hl : t.lasterr = some e0) (hne : e0.is .eof = false) (hp : plen ≠ 0)
    (h : Tail.Read env fuel es t plen = some (n, err, t', es', tr)) :
    (err = none → 1 ≤ n) ∧ ∀ e, err = some e → e.is .eof = true := by
  constructor
  · intro he
    subst he
    exact read_success_pos env fuel es t plen n t' es' tr h hp
  · intro e he
    subst he
    unfold Tail.Read at h
    rw [hl] at h
    have h1 : optIsEof (some e0) = false := by
      simpa [optIsEof] using hne
    rw [h1] at h
    simp only [Bool.false_eq_true, if_false] at h
    have hp2 : (plen == 0) = false := by
      simpa using hp
    rw [hp2] at h
    simp only [Bool.false_eq_true, if_false, Option.isNone_some] at h
    by_cases ho : ({ t with lasterr := none } : Tail).f.Opened = true
    · rw [if_pos ho] at h
      rcases readLoop_unarmed env fuel fuel es { t with lasterr := none } n (some e)
          t' es' tr h with h2 | h2
      · simp at h2
      · simp only [Option.some.injEq] at h2
        subst h2
        rfl
    · rw [if_neg ho] at h
      rcases hto : Tail.tryOpen env fuel es { t with lasterr := none } false with
        _ | ⟨e1, t1, es1, a1⟩
      · rw [hto] at h
        simp at h
      · rw [hto] at h
        rcases tryOpen_unarmed env fuel es { t with lasterr := none } e1 t1 es1 a1 hto with
          h2 | h2 <;> subst h2
        · dsimp only at h
          rcases hrl : Tail.readLoop env fuel fuel es1 t1 false with
            _ | ⟨n2, e2, t2, es2, a2⟩
          · rw [hrl] at h
            simp at h
          · rw [hrl] at h
            simp only [Option.some.injEq, Prod.mk.injEq] at h
            obtain ⟨-, he2, -, -, -⟩ := h
            rcases readLoop_unarmed env fuel fuel es1 t1 n2 e2 t2 es2 a2 hrl with h3 | h3
            · rw [h3] at he2
              simp at he2
            · rw [h3] at he2
              simp only [Option.some.injEq] at he2
              subst he2
              rfl
        · dsimp only at h
          simp only [Option.some.injEq, Prod.mk.injEq] at h
          obtain ⟨-, he2, -, -, -⟩ := h
          subst he2
          decide

/-- C4 witness: with a pending generic error recorded, the next pull under
the quiet environment returns one byte and no error. -/
theorem recovery_after_error_witness :
    ((none : Option GoError) = none → 1 ≤ 1) ∧
      (∀ e, (none : Option GoError) = some e → e.is .eof = true) :=
  recovery_after_error envD 1 es0 { tBase with lasterr := some (.errno 5) } 1
    (.errno 5) 1 none tBase ⟨0, 1, 1, 0, 0⟩ [Act.readFd 1 1]
    rfl (by decide) (by decide) (by decide)

/-- Helper: the effective select choice is cancellation only when the oracle
picked cancellation. -/
theorem select_ne_ctxDone (armed : Bool) (c : SelChoice) (h : c ≠ .ctxDone) :
    select armed c ≠ .ctxDone := by
  cases c <;> cases armed <;> simp_all [select]

/-- Helper: the error a trackedFile read feeds into the switch is never the
closed-descriptor error when the environment never produces one (a read on a
nil descriptor yields os.ErrInvalid, which is not os.ErrClosed either). -/
theorem tfRead_not_closed (env : Env) (k : Nat) (tf : TrackedFile)
    (hread : ∀ i, readNoClosed (env.readRes i) = true) :
    ∀ e, (tf.Read (env.readRes k)).1.2.map unwrap = some e → e.is .errClosed = false := by
  intro e he
  unfold TrackedFile.Read at he
  rcases hf : tf.file with _ | fd
  · rw [hf] at he
    simp only [Option.map_some', Option.some.injEq] at he
    subst he
    decide
  · rw [hf] at he
    dsimp only at he
    have h1 := hread k
    unfold readNoClosed at h1
    rcases hr2 : (env.readRes k).2 with _ | e0
    · rw [hr2] at he
      simp at he
    · rw [hr2] at he
      simp only [Option.map_some', Option.some.injEq] at he
      subst he
      rw [hr2] at h1
      simpa using h1

/-- Helper: openNext only returns errors produced by a platform open, never
an end-of-stream error. -/
theorem openNext_no_eof (env : Env) (es : EnvSt) (t : Tail)
    (hopen : ∀ i, openNoEof (env.openRes i) = true) :
    ∀ e, (t.openNext env es).1 = some e → e.is .eof = false := by
  intro e he
  unfold Tail.openNext at he
  rcases hnx : t.next with _ | nx <;> rw [hnx] at he <;> dsimp only at he
  · by_cases hd : t.f.Detached (env.statRes es.nStat) = true
    · rw [if_pos hd] at he
      cases hoc : env.openRes es.bumpStat.nOpen with
      | openFail e0 =>
        rw [hoc] at he
        simp only [TrackedFile.Open, Option.map_some', Option.some.injEq] at he
        have h1 := hopen es.bumpStat.nOpen
        rw [hoc] at h1
        rw [← he]
        simpa [openNoEof] using h1
      | statFail fd e0 =>
        rw [hoc] at he
        simp only [TrackedFile.Open, Option.map_some', Option.some.injEq] at he
        have h1 := hopen es.bumpStat.nOpen
        rw [hoc] at h1
        rw [← he]
        simpa [openNoEof] using h1
      | success fd fi =>
        rw [hoc] at he
        simp [TrackedFile.Open] at he
    · rw [if_neg hd] at he
      simp at he
  · by_cases hon : nx.Opened = true
    · rw [if_pos hon] at he
      simp at he
    · rw [if_neg hon] at he
      cases hoc : env.openRes es.nOpen with
      | openFail e0 =>
        rw [hoc] at he
        simp only [TrackedFile.Open, Option.map_some', Option.some.injEq] at he
        have h1 := hopen es.nOpen
        rw [hoc] at h1
        rw [← he]
        simpa [openNoEof] using h1
      | statFail fd e0 =>
        rw [hoc] at he
        simp only [TrackedFile.Open, Option.map_some', Option.some.injEq] at he
        have h1 := hopen es.nOpen
        rw [hoc] at h1
        rw [← he]
        simpa [openNoEof] using h1
      | success fd fi =>
        rw [hoc] at he
        simp [TrackedFile.Open] at he

/-- Helper: the closing select of read never yields end-of-stream when the
oracle never picks cancellation, the read error is not the closed-descriptor
error and any pending-open error is not end-of-stream. -/
theorem readSwitch_no_eof (env : Env) (es : EnvSt) (t : Tail) (armed : Bool)
    (errOpen : Option GoError) (n : Nat) (err : Option GoError) (acc : List Act)
    (n' : Nat) (err' : Option GoError) (t' : Tail) (es' : EnvSt) (tr' : List Act)
    (hsel : ∀ i, env.selRes i ≠ .ctxDone)
    (herr : ∀ e, err = some e → e.is .errClosed = false)
    (hopen : ∀ e, errOpen = some e → e.is .eof = false)
    (h : readSwitch env es t armed errOpen n err acc = some (n', err', t', es', tr')) :
    optIsEof err' = false := by
  unfold readSwitch at h
  rcases err with _ | e
  · simp only [Option.some.injEq, Prod.mk.injEq] at h
    obtain ⟨-, he, -, -, -⟩ := h
    rw [← he]
    rfl
  · dsimp only at h
    rw [if_neg (by simpa using herr e rfl)] at h
    have hc := select_ne_ctxDone
      (armed && (if e.is .eof then (errOpen, acc)
        else if isWouldBlock e then (none, acc)
        else (some e, acc ++ [.logReadErr e])).1.isSome)
      (env.selRes es.nSel) (hsel es.nSel)
    rcases hsc : select
        (armed && (if e.is .eof then (errOpen, acc)
          else if isWouldBlock e then (none, acc)
          else (some e, acc ++ [.logReadErr e])).1.isSome)
        (env.selRes es.nSel) with _ | _ | _
    · rw [hsc] at h
      simp only [Option.some.injEq, Prod.mk.injEq] at h
      obtain ⟨-, he, -, -, -⟩ := h
      rw [← he]
      rfl
    · rw [hsc] at h
      simp only [Option.some.injEq, Prod.mk.injEq] at h
      obtain ⟨-, he, -, -, -⟩ := h
      rw [← he]
      by_cases h1 : e.is .eof = true
      · rw [if_pos h1]
        rcases ho : errOpen with _ | eo
        · rfl
        · simpa [optIsEof] using hopen eo ho
      · rw [if_neg h1]
        by_cases h2 : isWouldBlock e = true
        · rw [if_pos h2]
          rfl
        · rw [if_neg h2]
          simpa [optIsEof] using h1
    · exact absurd hsc hc

/-- Helper: a read step never yields end-of-stream under a cancellation-free
environment. -/
theorem read_no_eof (env : Env)
    (hsel : ∀ i, env.selRes i ≠ .ctxDone)
    (hread : ∀ i, readNoClosed (env.readRes i) = true)
    (hopen : ∀ i, openNoEof (env.openRes i) = true) :
    ∀ fuel es t armed n err t' es' tr,
      Tail.read env fuel es t armed = some (n, err, t', es', tr) →
      optIsEof err = false := by
  intro fuel
  induction fuel with
  | zero =>
    intro es t armed n err t' es' tr h
    simp [Tail.read] at h
  | succ fuel ih =>
    intro es t armed n err t' es' tr h
    rw [Tail.read] at h
    rcases hop : t.openNext env es with ⟨errOpen, t1, es1, a1⟩
    rw [hop] at h
    dsimp only at h
    have hop1 : ∀ e, errOpen = some e → e.is .eof = false := by
      intro e he
      exact openNext_no_eof env es t hopen e (by rw [hop]; exact he)
    have herr1 := tfRead_not_closed env es1.nRead t1.f hread
    rcases hnx : t1.next with _ | nx
    · rw [hnx] at h
      exact readSwitch_no_eof env es1.bumpRead t1 armed errOpen
        (t1.f.Read (env.readRes es1.nRead)).1.1
        ((t1.f.Read (env.readRes es1.nRead)).1.2.map unwrap)
        (a1 ++ (t1.f.Read (env.readRes es1.nRead)).2) n err t' es' tr
        hsel herr1 hop1 h
    · rw [hnx] at h
      dsimp only at h
      by_cases hrot :
        (optIsEof ((t1.f.Read (env.readRes es1.nRead)).1.2.map unwrap) && nx.Opened) = true
      · rw [if_pos hrot] at h
        rcases hrec : Tail.read env fuel es1.bumpRead
            { f := nx, next := none, lasterr := t1.lasterr } armed with
          _ | ⟨n2, e2, t2, es2, a2⟩
        · rw [hrec] at h
          simp at h
        · rw [hrec] at h
          simp only [Option.some.injEq, Prod.mk.injEq] at h
          obtain ⟨-, he, -, -, -⟩ := h
          subst he
          exact ih _ _ _ _ _ _ _ _ hrec
      · rw [if_neg hrot] at h
        exact readSwitch_no_eof env es1.bumpRead t1 armed errOpen
          (t1.f.Read (env.readRes es1.nRead)).1.1
          ((t1.f.Read (env.readRes es1.nRead)).1.2.map unwrap)
          (a1 ++ (t1.f.Read (env.readRes es1.nRead)).2) n err t' es' tr
          hsel herr1 hop1 h

/-- Helper: the outer read loop never yields end-of-stream under a
cancellation-free environment. -/
theorem readLoop_no_eof (env : Env)
    (hsel : ∀ i, env.selRes i ≠ .ctxDone)
    (hread : ∀ i, readNoClosed (env.readRes i) = true)
    (hopen : ∀ i, openNoEof (env.openRes i) = true) :
    ∀ g fuel es t armed n err t' es' tr,
      Tail.readLoop env g fuel es t armed = some (n, err, t', es', tr) →
      optIsEof err = false := by
  intro g
  induction g with
  | zero =>
    intro fuel es t armed n err t' es' tr h
    simp [Tail.readLoop] at h
  | succ g ih =>
    intro fuel es t armed n err t' es' tr h
    rw [Tail.readLoop] at h
    rcases hr : Tail.read env fuel es t armed with _ | ⟨n1, e1, t1, es1, a1⟩
    · rw [hr] at h
      simp at h
    · rw [hr] at h
      dsimp only at h
      by_cases hg : (n1 == 0 && e1.isNone) = true
      · rw [if_pos hg] at h
        rcases hrec : Tail.readLoop env g fuel es1 { t1 with lasterr := none } armed with
          _ | ⟨n', e', t2, es2, a'⟩
        · rw [hrec] at h
          simp at h
        · rw [hrec] at h
          simp only [Option.some.injEq, Prod.mk.injEq] at h
          obtain ⟨-, he, -, -, -⟩ := h
          subst he
          exact ih _ _ _ _ _ _ _ _ _ hrec
      · rw [if_neg hg] at h
        simp only [Option.some.injEq, Prod.mk.injEq] at h
        obtain ⟨-, he, -, -, -⟩ := h
        subst he
        exact read_no_eof env hsel hread hopen fuel es t armed _ _ _ _ _ hr

/-- Helper: the open-retry loop never yields end-of-stream under a
cancellation-free environment whose open errors are never end-of-stream. -/
theorem open_err_no_eof (env : Env) (i : Nat) (tf : TrackedFile)
    (hopen : ∀ j, openNoEof (env.openRes j) = true) :
    ∀ er, (tf.Open (env.openRes i)).1 = some er → (unwrap er).is .eof = false := by
  intro er he
  cases hoc : env.openRes i with
  | openFail e0 =>
    rw [hoc] at he
    simp only [TrackedFile.Open, Option.some.injEq] at he
    subst he
    have h1 := hopen i
    rw [hoc] at h1
    simpa [openNoEof] using h1
  | statFail fd e0 =>
    rw [hoc] at he
    simp only [TrackedFile.Open, Option.some.injEq] at he
    subst he
    have h1 := hopen i
    rw [hoc] at h1
    simpa [openNoEof] using h1
  | success fd fi =>
    rw [hoc] at he
    simp [TrackedFile.Open] at he

theorem tryOpen_no_eof (env : Env)
    (hsel : ∀ i, env.selRes i ≠ .ctxDone)
    (hopen : ∀ i, openNoEof (env.openRes i) = true) :
    ∀ fuel es t armed r t' es' a,
      Tail.tryOpen env fuel es t armed = some (r, t', es', a) →
      optIsEof r = false := by
  intro fuel
  induction fuel with
  | zero =>
    intro es t armed r t' es' a h
    simp [Tail.tryOpen] at h
  | succ fuel ih =>
    intro es t armed r t' es' a h
    rw [Tail.tryOpen] at h
    rcases ho : t.f.Open (env.openRes es.nOpen) with ⟨e, f1, a1⟩
    rw [ho] at h
    dsimp only at h
    rcases e with _ | er
    · simp only [Option.some.injEq, Prod.mk.injEq] at h
      obtain ⟨hr, -, -, -⟩ := h
      rw [← hr]
      rfl
    · have hc := select_ne_ctxDone armed (env.selRes es.bumpOpen.nSel) (hsel es.bumpOpen.nSel)
      rcases hsc : select armed (env.selRes es.bumpOpen.nSel) with _ | _ | _
      · rw [hsc] at h
        rcases hrec : Tail.tryOpen env fuel es.bumpOpen.bumpSel { t with f := f1 } armed with
          _ | ⟨r2, t2, es2, a2⟩
        · rw [hrec] at h
          simp at h
        · rw [hrec] at h
          simp only [Option.some.injEq, Prod.mk.injEq] at h
          obtain ⟨hr, -, -, -⟩ := h
          subst hr
          exact ih _ _ _ _ _ _ _ hrec
      · rw [hsc] at h
        simp only [Option.some.injEq, Prod.mk.injEq] at h
        obtain ⟨hr, -, -, -⟩ := h
        rw [← hr]
        have h1 := open_err_no_eof env es.nOpen t.f hopen er (by rw [ho])
        simpa [optIsEof] using h1
      · exact absurd hsc hc

/-- C3: end-of-stream arises only from cancellation: a pull on an engine
that has not recorded end-of-stream, under an environment in which the
context-done channel never fires, reads never return the closed-descriptor
error (only the cancellation watcher can cause it) and platform opens never
fail with end-of-stream, never returns end-of-stream. -/
theorem eof_only_after_cancel (env : Env) (fuel : Nat) (es : EnvSt) (t : Tail)
    (plen : Nat) (n : Nat) (err : Option GoError) (t' : Tail) (es' : EnvSt)
    (tr : List Act)
    (hsel : ∀ i, env.selRes i ≠ .ctxDone)
    (hread : ∀ i, readNoClosed (env.readRes i) = true)
    (hopen : ∀ i, openNoEof (env.openRes i) = true)
    (hle : optIsEof t.lasterr = false)
    (h : Tail.Read env fuel es t plen = some (n, err, t', es', tr)) :
    optIsEof err = false := by
  unfold Tail.Read at h
  rw [hle] at h
  simp only [Bool.false_eq_true, if_false] at h
  by_cases hp : (plen == 0) = true
  · rw [if_pos hp] at h
    simp only [Option.some.injEq, Prod.mk.injEq] at h
    obtain ⟨-, he, -, -, -⟩ := h
    rw [← he]
    rfl
  · rw [if_neg hp] at h
    dsimp only at h
    by_cases ho : ({ t with lasterr := none } : Tail).f.Opened = true
    · rw [if_pos ho] at h
      exact readLoop_no_eof env hsel hread hopen fuel fuel es { t with lasterr := none }
        t.lasterr.isNone _ _ _ _ _ h
    · rw [if_neg ho] at h
      rcases hto : Tail.tryOpen env fuel es { t with lasterr := none } t.lasterr.isNone with
        _ | ⟨e1, t1, es1, a1⟩
      · rw [hto] at h
        simp at h
      · rw [hto] at h
        have h2 := tryOpen_no_eof env hsel hopen fuel es { t with lasterr := none }
          t.lasterr.isNone e1 t1 es1 a1 hto
        rcases e1 with _ | e2
        · dsimp only at h
          rcases hrl : Tail.readLoop env fuel fuel es1 t1 t.lasterr.isNone with
            _ | ⟨n2, e2', t2, es2, a2⟩
          · rw [hrl] at h
            simp at h
          · rw [hrl] at h
            simp only [Option.some.injEq, Prod.mk.injEq] at h
            obtain ⟨-, he, -, -, -⟩ := h
            rw [← he]
            exact readLoop_no_eof env hsel hread hopen fuel fuel es1 t1
              t.lasterr.isNone _ _ _ _ _ hrl
        · dsimp only at h
          simp only [Option.some.injEq, Prod.mk.injEq] at h
          obtain ⟨-, he, -, -, -⟩ := h
          rw [← he]
          exact h2

/-- C3 witness: under the quiet cancellation-free environment a pull on the
base engine returns one byte and no end-of-stream. -/
theorem eof_only_after_cancel_witness : optIsEof none = false :=
  eof_only_after_cancel envD 1 es0 tBase 1 1 none tBase ⟨0, 1, 1, 0, 0⟩
    [Act.readFd 1 1]
    (fun i => by simp [envD])
    (fun i => by simp [envD, readNoClosed])
    (fun i => by simp [envD, openNoEof])
    (by decide) (by decide)

/-- Helper: when an opened pending file already exists, openNext is a no-op. -/
theorem openNext_noop (env : Env) (es : EnvSt) (t : Tail) (nx : TrackedFile)
    (hnx : t.next = some nx) (hon : nx.Opened = true) :
    t.openNext env es = (none, t, es, []) := by
  unfold Tail.openNext
  rw [hnx]
  dsimp only
  rw [if_pos hon]

/-- Pending tracked file opened on inode 5, descriptor 9. -/
def nxO : TrackedFile := ⟨some 9, some ⟨5, 0⟩, true⟩

/-- Environment whose first read hits end-of-stream and whose later reads
yield three bytes. -/
def envRot : Env :=
  { envD with readRes := fun i => if i == 0 then (0, some .eof) else (3, none) }

/-- Engine with an opened current file and an opened pending file. -/
def tRot : Tail := { tBase with next := some nxO }

/-- C1: rotation handoff: when the read on the current tracked file returns
end-of-stream while an opened pending tracked file exists, read closes the
current file, promotes the pending file to current leaving the pending slot
empty, and continues the same pull on the newly current file; the trace shows
the final read of the old descriptor and its closure strictly before every
action on the replacement, so the old file's bytes were all delivered before
any byte of the new one. -/
theorem rotation_handoff (env : Env) (fuel : Nat) (es : EnvSt) (t : Tail)
    (armed : Bool) (nx : TrackedFile) (fdOld : Nat) (n0 : Nat) (e0 : GoError)
    (hnx : t.next = some nx) (hon : nx.Opened = true)
    (hf : t.f.file = some fdOld) (hcan : t.f.cancel = true)
    (hre : env.readRes es.nRead = (n0, some e0))
    (heof : (unwrap e0).is .eof = true) :
    Tail.read env (fuel + 1) es t armed =
      (Tail.read env fuel es.bumpRead { f := nx, next := none, lasterr := t.lasterr }
        armed).map
        (fun r => (r.1, r.2.1, r.2.2.1, r.2.2.2.1,
          Act.readFd fdOld n0 :: Act.closeCall true :: Act.closeFd fdOld :: r.2.2.2.2)) := by
  rw [Tail.read]
  rw [openNext_noop env es t nx hnx hon]
  dsimp only
  rw [hre]
  unfold TrackedFile.Read
  rw [hf]
  dsimp only
  rw [hnx]
  dsimp only
  have hcond : (optIsEof (Option.map unwrap (some e0)) && nx.Opened) = true := by
    simp [optIsEof, hon, heof]
  rw [if_pos hcond]
  unfold TrackedFile.Close
  rw [hf, hcan]
  dsimp only
  rcases hrec : Tail.read env fuel es.bumpRead
      { f := nx, next := none, lasterr := t.lasterr } armed with _ | ⟨n', e', t', es', a'⟩
  · rfl
  · simp

/-- C1 witness: with the first read returning end-of-stream and an opened
pending file, the pull continues on the promoted file. -/
theorem rotation_handoff_witness :
    Tail.read envRot 2 es0 tRot true =
      (Tail.read envRot 1 es0.bumpRead { f := nxO, next := none, lasterr := none }
        true).map
        (fun r => (r.1, r.2.1, r.2.2.1, r.2.2.2.1,
          Act.readFd 1 0 :: Act.closeCall true :: Act.closeFd 1 :: r.2.2.2.2)) :=
  rotation_handoff envRot 1 es0 tRot true nxO 1 0 .eof
    rfl (by decide) rfl (by decide) (by decide) (by decide)

/-- C9: Follow construction: when the initial open succeeds on a regular
file the engine seeks to the end; a failed seek closes the tracked file and
is treated (and logged) as an open failure, leaving the current file
unopened so the first pull retries; a successful seek leaves the file open;
a non-regular file is never seeked. -/
theorem follow_construction (env : Env) (es : EnvSt) (fd : Nat) (fi : FInfo)
    (hopen : env.openRes es.nOpen = .success fd fi) :
    (fi.modeType = 0 → env.seekRes es.nSeek = none →
      (Follow env es).1.f = ⟨some fd, some fi, true⟩ ∧
        Act.seekEnd ∈ (Follow env es).2.2) ∧
    (fi.modeType = 0 → ∀ se, env.seekRes es.nSeek = some se →
      (Follow env es).1.f.file = none ∧ Act.seekEnd ∈ (Follow env es).2.2 ∧
        Act.logCannotOpen (unwrap se) ∈ (Follow env es).2.2) ∧
    (fi.modeType ≠ 0 →
      (Follow env es).1.f = ⟨some fd, some fi, true⟩ ∧
        Act.seekEnd ∉ (Follow env es).2.2 ∧ (Follow env es).2.1 = es.bumpOpen) := by
  refine ⟨fun hm hs => ?_, fun hm se hs => ?_, fun hm => ?_⟩
  · unfold Follow
    rw [hopen]
    simp only [TrackedFile.Open, TrackedFile.Usual]
    have : fi.modeType == 0 := by simp [hm]
    rw [if_pos (by simpa using this)]
    have hs2 : env.seekRes es.bumpOpen.nSeek = none := hs
    rw [hs2]
    simp
  · unfold Follow
    rw [hopen]
    simp only [TrackedFile.Open, TrackedFile.Usual]
    have : fi.modeType == 0 := by simp [hm]
    rw [if_pos (by simpa using this)]
    have hs2 : env.seekRes es.bumpOpen.nSeek = some se := hs
    rw [hs2]
    simp [TrackedFile.Close]
  · unfold Follow
    rw [hopen]
    simp only [TrackedFile.Open, TrackedFile.Usual]
    have : (fi.modeType == 0) = false := by simpa using hm
    rw [if_neg (by simp [this])]
    simp

/-- C9 witness: open succeeds on a regular file and the seek fails: the
tracked file ends up closed, the seek happened and the failure was logged as
an open failure. -/
theorem follow_construction_witness :
    (Follow envSeekFail es0).1.f.file = none ∧
      Act.seekEnd ∈ (Follow envSeekFail es0).2.2 ∧
        Act.logCannotOpen (unwrap (.errno 22)) ∈ (Follow envSeekFail es0).2.2 :=
  (follow_construction envSeekFail es0 7 ⟨2, 0⟩ rfl).2.1 rfl (.errno 22) rfl

/-- Helper: Open preserves the tracked-file invariant. -/
theorem invTF_open (tf : TrackedFile) (r : OpenOutcome) (h : invTF tf = true) :
    invTF (tf.Open r).2.1 = true := by
  cases r <;> simp_all [TrackedFile.Open, invTF]

/-- Helper: Open records only safe actions. -/
theorem open_acts_safe (tf : TrackedFile) (r : OpenOutcome) :
    ∀ a ∈ (tf.Open r).2.2, safeAct a = true := by
  cases r <;> simp [TrackedFile.Open, safeAct]

/-- Helper: a trackedFile read records only safe actions. -/
theorem read_acts_safe (tf : TrackedFile) (rr : Nat × Option GoError) :
    ∀ a ∈ (tf.Read rr).2, safeAct a = true := by
  unfold TrackedFile.Read
  rcases tf.file with _ | fd <;> simp [safeAct]

/-- Helper: a read can only report end-of-stream on an open descriptor (a
nil descriptor reports os.ErrInvalid). -/
theorem read_file_some_of_eof (tf : TrackedFile) (rr : Nat × Option GoError)
    (h : optIsEof ((tf.Read rr).1.2.map unwrap) = true) : tf.file.isSome = true := by
  rcases hf : tf.file with _ | fd
  · unfold TrackedFile.Read at h
    rw [hf] at h
    dsimp only at h
    exact absurd h (by decide)
  · rfl

/-- Helper: openNext preserves the engine invariant and records only safe
actions. -/
theorem openNext_inv (env : Env) (es : EnvSt) (t : Tail) (h : invTail t = true) :
    invTail (t.openNext env es).2.1 = true ∧
      ∀ a ∈ (t.openNext env es).2.2.2, safeAct a = true := by
  unfold Tail.openNext
  rcases hnx : t.next with _ | nx
  · have hf : invTF t.f = true := by
      simp [invTail, hnx] at h
      exact h
    dsimp only
    by_cases hd : t.f.Detached (env.statRes es.nStat) = true
    · rw [if_pos hd]
      rcases ho : TailSpec.newTrackedFile.Open (env.openRes es.bumpStat.nOpen) with ⟨e, nf1, aa⟩
      have hnf : invTF nf1 = true := by
        have h1 := invTF_open TailSpec.newTrackedFile (env.openRes es.bumpStat.nOpen) (by decide)
        rw [ho] at h1
        exact h1
      have haa : ∀ a ∈ aa, safeAct a = true := by
        have h1 := open_acts_safe TailSpec.newTrackedFile (env.openRes es.bumpStat.nOpen)
        rw [ho] at h1
        exact h1
      rcases e with _ | e1 <;> dsimp only <;> constructor
      · simp [invTail, hf, hnf]
      · intro a ha
        rcases List.mem_append.mp ha with h1 | h1
        · exact haa a h1
        · simp at h1
          subst h1
          rfl
      · simp [invTail, hf, hnf]
      · intro a ha
        rcases List.mem_append.mp ha with h1 | h1
        · exact haa a h1
        · simp at h1
          subst h1
          rfl
    · rw [if_neg hd]
      exact ⟨h, by simp⟩
  · have hf : invTF t.f = true ∧ invTF nx = true := by
      simp [invTail, hnx] at h
      exact h
    dsimp only
    by_cases hon : nx.Opened = true
    · rw [if_pos hon]
      exact ⟨h, by simp⟩
    · rw [if_neg hon]
      rcases ho : nx.Open (env.openRes es.nOpen) with ⟨e, nx1, aa⟩
      have hnf : invTF nx1 = true := by
        have h1 := invTF_open nx (env.openRes es.nOpen) hf.2
        rw [ho] at h1
        exact h1
      have haa : ∀ a ∈ aa, safeAct a = true := by
        have h1 := open_acts_safe nx (env.openRes es.nOpen)
        rw [ho] at h1
        exact h1
      rcases e with _ | e1 <;> dsimp only <;> constructor
      · simp [invTail, hf.1, hnf]
      · intro a ha
        rcases List.mem_append.mp ha with h1 | h1
        · exact haa a h1
        · simp at h1
          subst h1
          rfl
      · simp [invTail, hf.1, hnf]
      · exact haa

/-- Helper: the closing select of read keeps the engine unchanged and adds
only safe actions. -/
theorem readSwitch_state (env : Env) (es : EnvSt) (t : Tail) (armed : Bool)
    (errOpen : Option GoError) (n : Nat) (err : Option GoError) (acc : List Act)
    (n' : Nat) (err' : Option GoError) (t' : Tail) (es' : EnvSt) (tr' : List Act)
    (h : readSwitch env es t armed errOpen n err acc = some (n', err', t', es', tr'))
    (hacc : ∀ a ∈ acc, safeAct a = true) :
    t' = t ∧ ∀ a ∈ tr', safeAct a = true := by
  unfold readSwitch at h
  rcases err with _ | e
  · simp only [Option.some.injEq, Prod.mk.injEq] at h
    obtain ⟨-, -, ht, -, htr⟩ := h
    subst ht
    subst htr
    exact ⟨rfl, hacc⟩
  · dsimp only at h
    have hr2 : ∀ a ∈ (if e.is .eof = true then (errOpen, acc)
        else if isWouldBlock e = true then (none, acc)
        else (some e, acc ++ [Act.logReadErr e])).2, safeAct a = true := by
      split_ifs
      · exact hacc
      · exact hacc
      · intro a ha
        rcases List.mem_append.mp ha with h1 | h1
        · exact hacc a h1
        · simp at h1
          subst h1
          rfl
    by_cases hc : e.is .errClosed = true
    · rw [if_pos hc] at h
      simp only [Option.some.injEq, Prod.mk.injEq] at h
      obtain ⟨-, -, ht, -, htr⟩ := h
      subst ht
      subst htr
      exact ⟨rfl, hacc⟩
    · rw [if_neg hc] at h
      rcases hsc : select (armed && (if e.is .eof = true then (errOpen, acc)
          else if isWouldBlock e = true then (none, acc)
          else (some e, acc ++ [Act.logReadErr e])).1.isSome)
          (env.selRes es.nSel) with _ | _ | _ <;>
        rw [hsc] at h <;>
        simp only [Option.some.injEq, Prod.mk.injEq] at h <;>
        obtain ⟨-, -, ht, -, htr⟩ := h <;>
        subst ht <;>
        subst htr <;>
        exact ⟨rfl, hr2⟩

/-- Helper: a read step preserves the engine invariant and records only safe
actions: in particular its rotation handoff only ever closes an open current
file, whose cancel function is present. -/
theorem read_inv (env : Env) :
    ∀ fuel es t armed n err t' es' tr,
      invTail t = true →
      Tail.read env fuel es t armed = some (n, err, t', es', tr) →
      invTail t' = true ∧ ∀ a ∈ tr, safeAct a = true := by
  intro fuel
  induction fuel with
  | zero =>
    intro es t armed n err t' es' tr hInv h
    simp [Tail.read] at h
  | succ fuel ih =>
    intro es t armed n err t' es' tr hInv h
    rw [Tail.read] at h
    rcases hop : t.openNext env es with ⟨errOpen, t1, es1, a1⟩
    rw [hop] at h
    dsimp only at h
    have h1 := openNext_inv env es t hInv
    rw [hop] at h1
    obtain ⟨hInv1, ha1⟩ := h1
    have hacc : ∀ a ∈ a1 ++ (t1.f.Read (env.readRes es1.nRead)).2, safeAct a = true := by
      intro a ha
      rcases List.mem_append.mp ha with h2 | h2
      · exact ha1 a h2
      · exact read_acts_safe t1.f (env.readRes es1.nRead) a h2
    rcases hnx : t1.next with _ | nx
    · rw [hnx] at h
      have h2 := readSwitch_state env es1.bumpRead t1 armed errOpen
        (t1.f.Read (env.readRes es1.nRead)).1.1
        ((t1.f.Read (env.readRes es1.nRead)).1.2.map unwrap)
        (a1 ++ (t1.f.Read (env.readRes es1.nRead)).2) n err t' es' tr h hacc
      obtain ⟨ht, htr⟩ := h2
      subst ht
      exact ⟨hInv1, htr⟩
    · rw [hnx] at h
      dsimp only at h
      by_cases hrot :
        (optIsEof ((t1.f.Read (env.readRes es1.nRead)).1.2.map unwrap) && nx.Opened) = true
      · rw [if_pos hrot] at h
        have hfile : t1.f.file.isSome = true :=
          read_file_some_of_eof t1.f (env.readRes es1.nRead)
            (by
              have := hrot
              simp only [Bool.and_eq_true] at this
              exact this.1)
        have hpair : invTF t1.f = true ∧ invTF nx = true := by
          simp [invTail, hnx] at hInv1
          exact hInv1
        have hcan : t1.f.cancel = true := by
          have h3 := hpair.1
          unfold invTF at h3
          rw [hfile] at h3
          simp at h3
          exact h3.1
        have hclose : ∀ a ∈ t1.f.Close.2, safeAct a = true := by
          unfold TrackedFile.Close
          rcases t1.f.file with _ | fd <;> simp [safeAct, hcan]
        rcases hrec : Tail.read env fuel es1.bumpRead
            { f := nx, next := none, lasterr := t1.lasterr } armed with
          _ | ⟨n2, e2, t2, es2, a2⟩
        · rw [hrec] at h
          simp at h
        · rw [hrec] at h
          simp only [Option.some.injEq, Prod.mk.injEq] at h
          obtain ⟨-, -, ht, -, htr⟩ := h
          subst ht
          subst htr
          have hrecInv := ih es1.bumpRead { f := nx, next := none, lasterr := t1.lasterr }
            armed n2 e2 t2 es2 a2 (by simp [invTail, hpair.2]) hrec
          refine ⟨hrecInv.1, ?_⟩
          intro a ha
          rcases List.mem_append.mp ha with h3 | h3
          · rcases List.mem_append.mp h3 with h4 | h4
            · rcases List.mem_append.mp h4 with h5 | h5
              · exact ha1 a h5
              · exact read_acts_safe t1.f (env.readRes es1.nRead) a h5
            · exact hclose a h4
          · exact hrecInv.2 a h3
      · rw [if_neg hrot] at h
        have h2 := readSwitch_state env es1.bumpRead t1 armed errOpen
          (t1.f.Read (env.readRes es1.nRead)).1.1
          ((t1.f.Read (env.readRes es1.nRead)).1.2.map unwrap)
          (a1 ++ (t1.f.Read (env.readRes es1.nRead)).2) n err t' es' tr h hacc
        obtain ⟨ht, htr⟩ := h2
        subst ht
        exact ⟨hInv1, htr⟩

/-- Helper: the outer read loop preserves the engine invariant and records
only safe actions. -/
theorem readLoop_inv (env : Env) :
    ∀ g fuel es t armed n err t' es' tr,
      invTail t = true →
      Tail.readLoop env g fuel es t armed = some (n, err, t', es', tr) →
      invTail t' = true ∧ ∀ a ∈ tr, safeAct a = true := by
  intro g
  induction g with
  | zero =>
    intro fuel es t armed n err t' es' tr hInv h
    simp [Tail.readLoop] at h
  | succ g ih =>
    intro fuel es t armed n err t' es' tr hInv h
    rw [Tail.readLoop] at h
    rcases hr : Tail.read env fuel es t armed with _ | ⟨n1, e1, t1, es1, a1⟩
    · rw [hr] at h
      simp at h
    · rw [hr] at h
      dsimp only at h
      have hstep := read_inv env fuel es t armed n1 e1 t1 es1 a1 hInv hr
      by_cases hg : (n1 == 0 && e1.isNone) = true
      · rw [if_pos hg] at h
        rcases hrec : Tail.readLoop env g fuel es1 { t1 with lasterr := none } armed with
          _ | ⟨n', e', t2, es2, a'⟩
        · rw [hrec] at h
          simp at h
        · rw [hrec] at h
          simp only [Option.some.injEq, Prod.mk.injEq] at h
          obtain ⟨-, -, ht, -, htr⟩ := h
          subst ht
          subst htr
          have hrecInv := ih fuel es1 { t1 with lasterr := none } armed n' e' t2 es2 a'
            (by simpa [invTail] using hstep.1) hrec
          refine ⟨hrecInv.1, ?_⟩
          intro a ha
          rcases List.mem_append.mp ha with h3 | h3
          · exact hstep.2 a h3
          · exact hrecInv.2 a h3
      · rw [if_neg hg] at h
        simp only [Option.some.injEq, Prod.mk.injEq] at h
        obtain ⟨-, -, ht, -, htr⟩ := h
        subst ht
        subst htr
        exact ⟨by simpa [invTail] using hstep.1, hstep.2⟩

/-- Helper: the open-retry loop preserves the engine invariant and records
only safe actions. -/
theorem tryOpen_inv (env : Env) :
    ∀ fuel es t armed r t' es' a,
      invTail t = true →
      Tail.tryOpen env fuel es t armed = some (r, t', es', a) →
      invTail t' = true ∧ ∀ x ∈ a, safeAct x = true := by
  intro fuel
  induction fuel with
  | zero =>
    intro es t armed r t' es' a hInv h
    simp [Tail.tryOpen] at h
  | succ fuel ih =>
    intro es t armed r t' es' a hInv h
    rw [Tail.tryOpen] at h
    rcases ho : t.f.Open (env.openRes es.nOpen) with ⟨e, f1, a1⟩
    rw [ho] at h
    dsimp only at h
    have hft : invTF t.f = true := by
      unfold invTail at hInv
      simp only [Bool.and_eq_true] at hInv
      exact hInv.1
    have hf1 : invTF f1 = true := by
      have h1 := invTF_open t.f (env.openRes es.nOpen) hft
      rw [ho] at h1
      exact h1
    have hInv1 : invTail { t with f := f1 } = true := by
      unfold invTail at hInv ⊢
      simp only [Bool.and_eq_true] at hInv ⊢
      exact ⟨hf1, hInv.2⟩
    have ha1 : ∀ x ∈ a1, safeAct x = true := by
      have h1 := open_acts_safe t.f (env.openRes es.nOpen)
      rw [ho] at h1
      exact h1
    rcases e with _ | er
    · simp only [Option.some.injEq, Prod.mk.injEq] at h
      obtain ⟨-, ht, -, htr⟩ := h
      subst ht
      subst htr
      refine ⟨hInv1, ?_⟩
      intro x hx
      rcases List.mem_append.mp hx with h2 | h2
      · exact ha1 x h2
      · simp at h2
        subst h2
        rfl
    · rcases hsc : select armed (env.selRes es.bumpOpen.nSel) with _ | _ | _ <;> rw [hsc] at h
      · rcases hrec : Tail.tryOpen env fuel es.bumpOpen.bumpSel { t with f := f1 } armed with
          _ | ⟨r2, t2, es2, a2⟩
        · rw [hrec] at h
          simp at h
        · rw [hrec] at h
          simp only [Option.some.injEq, Prod.mk.injEq] at h
          obtain ⟨-, ht, -, htr⟩ := h
          subst ht
          subst htr
          have hrecInv := ih es.bumpOpen.bumpSel { t with f := f1 } armed r2 t2 es2 a2 hInv1 hrec
          refine ⟨hrecInv.1, ?_⟩
          intro x hx
          rcases List.mem_append.mp hx with h2 | h2
          · exact ha1 x h2
          · exact hrecInv.2 x h2
      · simp only [Option.some.injEq, Prod.mk.injEq] at h
        obtain ⟨-, ht, -, htr⟩ := h
        subst ht
        subst htr
        exact ⟨hInv1, ha1⟩
      · simp only [Option.some.injEq, Prod.mk.injEq] at h
        obtain ⟨-, ht, -, htr⟩ := h
        subst ht
        subst htr
        exact ⟨hInv1, ha1⟩

/-- Helper: a full pull preserves the engine invariant and records only safe
actions. -/
theorem Read_inv_all (env : Env) (fuel : Nat) (es : EnvSt) (t : Tail) (plen : Nat)
    (n : Nat) (err : Option GoError) (t' : Tail) (es' : EnvSt) (tr : List Act)
    (hInv : invTail t = true)
    (h : Tail.Read env fuel es t plen = some (n, err, t', es', tr)) :
    invTail t' = true ∧ ∀ a ∈ tr, safeAct a = true := by
  unfold Tail.Read at h
  by_cases hle : optIsEof t.lasterr = true
  · rw [if_pos hle] at h
    simp only [Option.some.injEq, Prod.mk.injEq] at h
    obtain ⟨-, -, ht, -, htr⟩ := h
    subst ht
    subst htr
    exact ⟨hInv, by simp⟩
  · rw [if_neg hle] at h
    by_cases hp : (plen == 0) = true
    · rw [if_pos hp] at h
      simp only [Option.some.injEq, Prod.mk.injEq] at h
      obtain ⟨-, -, ht, -, htr⟩ := h
      subst ht
      subst htr
      exact ⟨hInv, by simp⟩
    · rw [if_neg hp] at h
      dsimp only at h
      have hInv0 : invTail { t with lasterr := none } = true := by
        simpa [invTail] using hInv
      by_cases ho : ({ t with lasterr := none } : Tail).f.Opened = true
      · rw [if_pos ho] at h
        exact readLoop_inv env fuel fuel es { t with lasterr := none }
          t.lasterr.isNone n err t' es' tr hInv0 h
      · rw [if_neg ho] at h
        rcases hto : Tail.tryOpen env fuel es { t with lasterr := none } t.lasterr.isNone with
          _ | ⟨e1, t1, es1, a1⟩
        · rw [hto] at h
          simp at h
        · rw [hto] at h
          have hstep := tryOpen_inv env fuel es { t with lasterr := none }
            t.lasterr.isNone e1 t1 es1 a1 hInv0 hto
          rcases e1 with _ | e2
          · dsimp only at h
            rcases hrl : Tail.readLoop env fuel fuel es1 t1 t.lasterr.isNone with
              _ | ⟨n2, e2', t2, es2, a2⟩
            · rw [hrl] at h
              simp at h
            · rw [hrl] at h
              simp only [Option.some.injEq, Prod.mk.injEq] at h
              obtain ⟨-, -, ht, -, htr⟩ := h
              subst ht
              subst htr
              have hrlInv := readLoop_inv env fuel fuel es1 t1 t.lasterr.isNone
                n2 e2' t2 es2 a2 hstep.1 hrl
              refine ⟨hrlInv.1, ?_⟩
              intro a ha
              rcases List.mem_append.mp ha with h3 | h3
              · exact hstep.2 a h3
              · exact hrlInv.2 a h3
          · dsimp only at h
            simp only [Option.some.injEq, Prod.mk.injEq] at h
            obtain ⟨-, -, ht, -, htr⟩ := h
            subst ht
            subst htr
            exact ⟨by simpa [invTail] using hstep.1, hstep.2⟩

/-- Helper: Follow establishes the engine invariant and records only safe
actions: Usual is consulted and Close invoked only after a successful open. -/
theorem follow_inv (env : Env) (es : EnvSt) :
    invTail (Follow env es).1 = true ∧ ∀ a ∈ (Follow env es).2.2, safeAct a = true := by
  unfold Follow
  cases hoc : env.openRes es.nOpen with
  | openFail e0 =>
    simp [TrackedFile.Open, invTail, invTF, TailSpec.newTrackedFile, safeAct]
  | statFail fd e0 =>
    simp [TrackedFile.Open, invTail, invTF, TailSpec.newTrackedFile, safeAct]
  | success fd fi =>
    simp only [TrackedFile.Open, TrackedFile.Usual]
    by_cases hm : (fi.modeType == 0) = true
    · rw [if_pos (by simpa using hm)]
      cases hs : env.seekRes es.bumpOpen.nSeek with
      | none =>
        simp [invTail, invTF, safeAct]
      | some se =>
        simp [invTail, invTF, safeAct, TrackedFile.Close]
    · rw [if_neg (by simpa using hm)]
      simp [invTail, invTF, safeAct]

/-- C10: the engine never calls trackedFile.Close or trackedFile.Usual on a
tracked file that has not been successfully opened: Follow establishes the
invariant that an open descriptor always comes with a cancel function and a
stat snapshot, every pull preserves it, and every Close and Usual recorded
in any reachable trace found its cancel function and snapshot present, so
the nil dereferences in Close and Usual are unreachable. -/
theorem no_nil_dereference :
    (∀ (env : Env) (es : EnvSt),
      invTail (Follow env es).1 = true ∧
        ∀ a ∈ (Follow env es).2.2, safeAct a = true) ∧
    (∀ (env : Env) (fuel : Nat) (es : EnvSt) (t : Tail) (plen n : Nat)
        (err : Option GoError) (t' : Tail) (es' : EnvSt) (tr : List Act),
      invTail t = true →
      Tail.Read env fuel es t plen = some (n, err, t', es', tr) →
      invTail t' = true ∧ ∀ a ∈ tr, safeAct a = true) :=
  ⟨follow_inv, Read_inv_all⟩

/-- C10 witness: a concrete Follow then pull keeps the invariant and records
only safe Close and Usual calls. -/
theorem no_nil_dereference_witness :
    (invTail (Follow envD es0).1 = true ∧
      ∀ a ∈ (Follow envD es0).2.2, safeAct a = true) ∧
    (invTail tBase = true ∧ ∀ a ∈ [Act.readFd 1 1], safeAct a = true) :=
  ⟨no_nil_dereference.1 envD es0,
    no_nil_dereference.2 envD 1 es0 tBase 1 1 none tBase ⟨0, 1, 1, 0, 0⟩
      [Act.readFd 1 1] (by decide) (by decide)⟩

end TailSpec
